import Mathlib

/-!
Shallow embedding of `src/chicago_visualization_full_code.py`: a straight-line
pandas script that loads one incident table and derives analytic views
(top-category counts, arrest rates, monthly series, hourly/weekday
distributions, a seeded spatial subsample, a density grid, cumulative series
and per-day monthly groups).  Pure pandas operations are modelled as pure
Lean functions over an explicit table of rows.
-/

namespace Chicago

/-- Fuelled worker for `uniq`: keeps the head and removes its duplicates from
the tail.  Structural recursion on the fuel keeps the definition
kernel-reducible; `uniq` supplies enough fuel. -/
def uniqGo {α : Type} [DecidableEq α] : Nat → List α → List α
  | 0, _ => []
  | _, [] => []
  | n + 1, x :: xs => x :: uniqGo n (xs.filter (fun y => y ≠ x))

/-- First-occurrence deduplication: the distinct values of a list, in order of
first appearance.  Models the set of keys produced by `value_counts` /
`groupby` before sorting (the key set is what matters; ordering of the
result is applied separately). -/
def uniq {α : Type} [DecidableEq α] (l : List α) : List α := uniqGo l.length l

/-- Insert `a` into `l`, placing it before the first element `b` for which
`le a b` fails to hold of `b`'s predecessors — standard insertion step of an
insertion sort with comparator `le`. -/
def insertOn {α : Type} (le : α → α → Bool) (a : α) : List α → List α
  | [] => [a]
  | b :: bs => if le a b then a :: b :: bs else b :: insertOn le a bs

/-- Insertion sort by the boolean comparator `le`.  Used to model pandas'
sorting of `value_counts` output (descending by count) and of `groupby` keys
(ascending by key). -/
def sortOn {α : Type} (le : α → α → Bool) : List α → List α
  | [] => []
  | x :: xs => insertOn le x (sortOn le xs)

/-- Running sum with accumulator: models `Series.cumsum` over (key, value)
pairs, keeping each key and replacing its value by the prefix sum up to it. -/
def cumGo {κ : Type} (acc : Nat) : List (κ × Nat) → List (κ × Nat)
  | [] => []
  | (k, v) :: rest => (k, acc + v) :: cumGo (acc + v) rest

/-- Occurrence count of a value in a list (`List.count` with the equality
test fixed to the `DecidableEq` instance, so that statements and the
grouped-count definitions below agree on the comparison being used). -/
def countOcc {α : Type} [DecidableEq α] (l : List α) (a : α) : Nat := l.count a

/-- Grouped counts: one `(value, multiplicity)` pair per distinct value of the
input list, keys in first-seen order.  Models the unsorted content of
`Series.value_counts` / `groupby(...).size()`. -/
def groupCounts {α : Type} [DecidableEq α] (vals : List α) : List (α × Nat) :=
  (uniq vals).map (fun v => (v, countOcc vals v))

/-- A parsed timestamp value (pandas `Timestamp`), reduced to the calendar
components the script reads through the `.dt` accessors. -/
structure DateTime where
  year : Int
  month : Nat
  day : Nat
  hour : Nat
deriving DecidableEq, Repr

/-- Day-of-week of a calendar date by Zeller's congruence, renumbered so that
0 = Monday … 6 = Sunday (pandas' `dayofweek` convention).  Models the
underlying computation of `Series.dt.day_name()` as a pure function of the
timestamp. -/
def dayOfWeek (d : DateTime) : Nat :=
  let m : Int := if d.month ≤ 2 then (d.month : Int) + 12 else (d.month : Int)
  let y : Int := if d.month ≤ 2 then d.year - 1 else d.year
  let j : Int := (y / 100 : Int)
  let k : Int := y % 100
  let h : Int := ((d.day : Int) + (13 * (m + 1)) / 5 + k + k / 4 + j / 4 + 5 * j) % 7
  ((h + 5) % 7).toNat

/-- The fixed weekday-name order used at line 78 of the script. -/
def weekday_order : List String :=
  ["Monday", "Tuesday", "Wednesday", "Thursday", "Friday", "Saturday", "Sunday"]

/-- English day name for a pandas day-of-week index (0 = Monday). -/
def dayName (n : Nat) : String := weekday_order.getD n ""

/-- One row of the loaded dataframe.  Every column the script touches is a
field; a `none` models a pandas null (`NaN`/`NaT`).  `arrest` is the boolean
`Arrest` flag. -/
structure Row where
  primaryType : Option String
  locDesc : Option String
  arrest : Bool
  date : Option DateTime
  year : Option Int
  month : Option Nat
  day : Option Nat
  hour : Option Nat
  weekday : Option String
  lat : Option Int
  lon : Option Int
deriving DecidableEq, Repr

/-- A dataframe: its column-name list (used by the `in df.columns` tests and
the lat/lon prefix detection) together with its rows. -/
structure Frame where
  cols : List String
  rows : List Row
deriving DecidableEq, Repr

/-- A row with every nullable field null; concrete tables override fields. -/
def baseRow : Row :=
  { primaryType := none, locDesc := none, arrest := false, date := none,
    year := none, month := none, day := none, hour := none, weekday := none,
    lat := none, lon := none }

/-- The five derived temporal column names assigned at lines 23–27. -/
def tempCols : List String := ["Year", "Month", "Day", "Hour", "Weekday"]

/-- Lines 23–27: overwrite the five temporal fields of a row with the pure
projections of its `IncidentDate` timestamp (`dt.year`, `dt.month`, `dt.day`,
`dt.hour`, `dt.day_name()`); a null timestamp yields null in all five. -/
def deriveRow (r : Row) : Row :=
  { r with
    year := r.date.map (fun d => d.year),
    month := r.date.map (fun d => d.month),
    day := r.date.map (fun d => d.day),
    hour := r.date.map (fun d => d.hour),
    weekday := r.date.map (fun d => dayName (dayOfWeek d)) }

/-- Lines 22–27 (Schema Normalizer): when `Year` is not a column and
`IncidentDate` is, derive the five temporal columns from the timestamp;
otherwise the frame is untouched.  Column assignment adds each of the five
names that is not already present. -/
def normalize (f : Frame) : Frame :=
  if "Year" ∉ f.cols ∧ "IncidentDate" ∈ f.cols then
    { cols := f.cols ++ tempCols.filter (fun c => c ∉ f.cols),
      rows := f.rows.map deriveRow }
  else f

/-- Whether the (lowercase ASCII) pattern character `p` is the lowercasing of
the character `c`: models one character of Python's `c.lower().startswith(p)`
for ASCII column names. -/
def lowersTo (p c : Char) : Bool := c == p || decide (c.toNat = p.toNat - 32)

/-- Case-insensitive prefix test of a lowercase ASCII pattern against a
string's characters. -/
def startsWithCI : List Char → List Char → Bool
  | [], _ => true
  | _ :: _, [] => false
  | p :: ps, c :: cs => lowersTo p c && startsWithCI ps cs

/-- Line 30: first column whose lowercased name starts with `lat`
(`next((c for c in df.columns if c.lower().startswith('lat')), None)`). -/
def latCol (f : Frame) : Option String :=
  f.cols.find? (fun c => startsWithCI ['l', 'a', 't'] c.data)

/-- Line 31: first column whose lowercased name starts with `lon`. -/
def lonCol (f : Frame) : Option String :=
  f.cols.find? (fun c => startsWithCI ['l', 'o', 'n'] c.data)

/-- The non-null `Primary Type` values of the table, in row order. -/
def ptVals (f : Frame) : List String := f.rows.filterMap (fun r => r.primaryType)

/-- The non-null `Location Description` values of the table, in row order. -/
def ldVals (f : Frame) : List String := f.rows.filterMap (fun r => r.locDesc)

/-- Comparator placing higher counts first: models the descending sort of
`value_counts` (tie order left to the stable sort, i.e. first-seen). -/
def byCountDesc {α : Type} (a b : α × Nat) : Bool := decide (b.2 ≤ a.2)

/-- Line 40: `df['Primary Type'].value_counts().head(10)` — the ten most
frequent non-null primary types with their frequencies, descending. -/
def top_primary (f : Frame) : List (String × Nat) :=
  (sortOn byCountDesc (groupCounts (ptVals f))).take 10

/-- Line 87: `df['Location Description'].value_counts().head(10)`. -/
def loc_top10 (f : Frame) : List (String × Nat) :=
  (sortOn byCountDesc (groupCounts (ldVals f))).take 10

/-- Line 49: the category list of the top-10 primary-type view. -/
def top10 (f : Frame) : List String := (top_primary f).map (fun p => p.1)

/-- The rows of a given primary-type category. -/
def catRows (f : Frame) (c : String) : List Row :=
  f.rows.filter (fun r => r.primaryType == some c)

/-- `groupby('Primary Type')['Arrest'].mean()` at one category: the arithmetic
mean of the boolean `Arrest` field over the rows of that category, as an exact
rational; `none` when the category has no rows (no group to take a mean of). -/
def meanArrest (f : Frame) (c : String) : Option ℚ :=
  let g := catRows f c
  if g.length = 0 then none
  else some ((g.countP (fun r => r.arrest) : ℚ) / (g.length : ℚ))

/-- Line 50: arrest rate per top-10 primary type, restricted to and ordered by
`top10` (the `.loc[top10]` reindex); a category without rows contributes no
entry (unreachable for `value_counts`-derived categories, which always have at
least one row). -/
def arrest_rate (f : Frame) : List (String × ℚ) :=
  (top10 f).filterMap (fun c => (meanArrest f c).map (fun q => (c, q)))

/-- Lines 59–60: the `(year, month)` calendar period of each row with a
non-null timestamp (`to_period('M')`). -/
def periodVals (f : Frame) : List (Int × Nat) :=
  (f.rows.filterMap (fun r => r.date)).map (fun d => (d.year, d.month))

/-- Ascending comparator on `((year, month), count)` pairs: lexicographic on
the period key, as `sort_index()` orders monthly buckets. -/
def perLe (a b : (Int × Nat) × Nat) : Bool :=
  decide (a.1.1 < b.1.1 ∨ (a.1.1 = b.1.1 ∧ a.1.2 ≤ b.1.2))

/-- Line 61: `df_ts.groupby('YearMonth').size().sort_index()` — count of rows
per calendar month, months with no rows absent, sorted ascending by period. -/
def monthly (f : Frame) : List ((Int × Nat) × Nat) :=
  sortOn perLe (groupCounts (periodVals f))

/-- Line 114: `monthly.cumsum()` — running sums over the sorted series. -/
def cum (f : Frame) : List ((Int × Nat) × Nat) := cumGo 0 (monthly f)

/-- Line 71: histogram of the non-null integer hours over bins 0–23. -/
def hourly (f : Frame) : List Nat :=
  (List.range 24).map (fun h => (f.rows.filterMap (fun r => r.hour)).count h)

/-- Line 79: `df['Weekday'].value_counts().reindex(weekday_order).fillna(0)` —
for each of the seven canonical names in order, the number of rows carrying
that weekday value (0 when absent). -/
def weekday_counts (f : Frame) : List (String × Nat) :=
  weekday_order.map (fun w => (w, (f.rows.filterMap (fun r => r.weekday)).count w))

/-- One step of a linear congruential generator: models the external
pseudo-random engine behind `random_state=1` as a pure function of its state,
so the whole sampler is a deterministic function of (table, seed). -/
def lcg (s : Nat) : Nat := (1103515245 * s + 12345) % 2 ^ 31

/-- Deterministic seeded permutation of a list: repeatedly pick the element at
the pseudo-random index and recurse on the remainder.  Models the without-
replacement row selection of `DataFrame.sample(..., random_state=seed)`. -/
def shuffle {α : Type} [DecidableEq α] (s : Nat) (l : List α) : List α :=
  match h : l with
  | [] => []
  | x :: xs =>
    let i : Fin l.length := ⟨s % l.length, Nat.mod_lt s (by simp [h])⟩
    let a := l.get i
    a :: shuffle (lcg s) (l.erase a)
termination_by l.length
decreasing_by
  show (l.erase a).length < (x :: xs).length
  have ha : a ∈ l := List.get_mem l i.1 i.2
  have hlen : (l.erase a).length = l.length - 1 := List.length_erase_of_mem ha
  have hx : l.length = (x :: xs).length := by rw [h]
  have hpos : 0 < l.length := Nat.lt_of_le_of_lt (Nat.zero_le _) i.2
  omega

/-- `DataFrame.sample(n=n, random_state=seed)` on a table of `l.length` rows:
the first `n` rows of the seeded permutation when `n` does not exceed the
population, and `none` (pandas raises `ValueError`) when it does. -/
def pandasSample {α : Type} [DecidableEq α] (seed n : Nat) (l : List α) :
    Option (List α) :=
  if n ≤ l.length then some ((shuffle seed l).take n) else none

/-- The rows with both detected coordinates non-null
(`df.dropna(subset=[lat_col, lon_col])`). -/
def geoRows (f : Frame) : List Row :=
  f.rows.filter (fun r => r.lat.isSome && r.lon.isSome)

/-- Lines 96–97: when both coordinate columns were detected, sample
`min(20000, len(df))` rows — `len` of the FULL frame, as written in the
source — from the coordinate-complete rows with seed 1.  Outer `none`:
columns absent, block skipped; inner `none`: `.sample` raised. -/
def sample_scatter (f : Frame) : Option (Option (List Row)) :=
  if (latCol f).isSome && (lonCol f).isSome then
    some (pandasSample 1 (min 20000 f.rows.length) (geoRows f))
  else none

/-- Grid index of a coordinate within `[lo, hi]` at resolution 80: models the
bin assignment of `hexbin(..., gridsize=80)` over the sample's bounding box
(coordinates carried as integers; bin geometry is not examined by any
property below, only the view's presence and its count structure). -/
def binIndex (lo hi v : Int) : Int :=
  if hi = lo then 0 else (v - lo) * 80 / (hi - lo)

/-- Line 107: 2-D occurrence counts of the sampled points by grid bin. -/
def densityGrid (s : List Row) : List ((Int × Int) × Nat) :=
  let lons := s.filterMap (fun r => r.lon)
  let lats := s.filterMap (fun r => r.lat)
  let loLon := lons.foldr min 0
  let hiLon := lons.foldr max 0
  let loLat := lats.foldr min 0
  let hiLat := lats.foldr max 0
  let pts := s.filterMap (fun r =>
    match r.lon, r.lat with
    | some x, some y => some (binIndex loLon hiLon x, binIndex loLat hiLat y)
    | _, _ => none)
  groupCounts pts

/-- The grouping key of line 124: the row's `Year` and `Month` columns plus
the calendar date (`dt.date`) of its timestamp. -/
structure DailyKey where
  year : Int
  month : Nat
  dy : Int
  dm : Nat
  dd : Nat
deriving DecidableEq, Repr

/-- Ascending lexicographic comparator on daily keys, as `groupby` sorts. -/
def dailyLe (a b : DailyKey) : Bool :=
  decide (a.year < b.year ∨ (a.year = b.year ∧ (a.month < b.month ∨
    (a.month = b.month ∧ (a.dy < b.dy ∨ (a.dy = b.dy ∧ (a.dm < b.dm ∨
      (a.dm = b.dm ∧ a.dd ≤ b.dd))))))))

/-- The grouping keys of the timestamp-bearing rows; a row whose `Year` or
`Month` column is null contributes no key (pandas `groupby` drops null keys). -/
def dailyKeys (f : Frame) : List DailyKey :=
  (f.rows.filter (fun r => r.date.isSome)).filterMap (fun r =>
    match r.year, r.month, r.date with
    | some y, some m, some d => some ⟨y, m, d.year, d.month, d.day⟩
    | _, _, _ => none)

/-- Line 124: `df_ts.groupby(['Year','Month','DateOnly']).size()` — one count
per distinct (Year, Month, calendar-date) key. -/
def daily_counts (f : Frame) : List (DailyKey × Nat) :=
  sortOn (fun a b => dailyLe a.1 b.1) (groupCounts (dailyKeys f))

/-- Line 125: for each month `m` in `range(1, 13)`, the sequence of per-day
counts whose `Month` column equals `m`. -/
def monthly_groups (f : Frame) : List (List Nat) :=
  (List.range' 1 12).map (fun m =>
    ((daily_counts f).filter (fun kc => kc.1.month == m)).map (fun kc => kc.2))

/-- The derived views of one run of the script, in script order.  The spatial
block (lines 96–111) runs only when both coordinate columns were detected;
if `.sample` raises there, the script aborts and the views of lines 114 and
123–125 are never produced (`none`). -/
structure Views where
  topPrimary : List (String × Nat)
  arrestRate : List (String × ℚ)
  monthlySeries : List ((Int × Nat) × Nat)
  hourlyHist : List Nat
  weekday : List (String × Nat)
  locTop : List (String × Nat)
  spatial : Option (Option (List Row))
  density : Option (Option (List ((Int × Int) × Nat)))
  cumulative : Option (List ((Int × Nat) × Nat))
  monthlyGroups : Option (List (List Nat))
deriving DecidableEq, Repr

/-- The whole script as a function of the loaded table: normalize, then
compute every view, propagating a sampling error to the views computed after
the spatial block. -/
def pipeline (f : Frame) : Views :=
  let nf := normalize f
  let spl := sample_scatter nf
  let failed : Bool := spl == some none
  { topPrimary := top_primary nf,
    arrestRate := arrest_rate nf,
    monthlySeries := monthly nf,
    hourlyHist := hourly nf,
    weekday := weekday_counts nf,
    locTop := loc_top10 nf,
    spatial := spl,
    density := spl.map (fun s => s.map densityGrid),
    cumulative := if failed then none else some (cum nf),
    monthlyGroups := if failed then none else some (monthly_groups nf) }

/-- A geotagged row (both coordinates non-null). -/
def geoRow : Row := { baseRow with lat := some 41, lon := some (-87) }

/-- A two-row table with coordinate columns in which only one row has both
coordinates non-null. -/
def exC1 : Frame :=
  { cols := ["IncidentDate", "Latitude", "Longitude"], rows := [geoRow, baseRow] }

/-- A THEFT row with an arrest. -/
def theftA : Row := { baseRow with primaryType := some ("THEFT"), arrest := true }

/-- A THEFT row without an arrest. -/
def theftN : Row := { baseRow with primaryType := some ("THEFT") }

/-- A BATTERY row without an arrest. -/
def battery : Row := { baseRow with primaryType := some ("BATTERY") }

/-- The spec's rate example: 100 rows, 60 of category THEFT of which 30 have
`Arrest = true`, the remaining 40 of another category. -/
def exC3 : Frame :=
  { cols := ["Primary Type", "Arrest"],
    rows := List.replicate 30 theftA ++ List.replicate 30 theftN ++
      List.replicate 40 battery }

/-- A row timestamped in January 2015. -/
def rowJan : Row := { baseRow with date := some ⟨2015, 1, 5, 3⟩ }

/-- A row timestamped in March 2015. -/
def rowMar : Row := { baseRow with date := some ⟨2015, 3, 10, 2⟩ }

/-- The spec's time-series example: timestamps spanning only January and
March 2015, plus one row with a null timestamp. -/
def exC6 : Frame :=
  { cols := ["IncidentDate"], rows := [rowJan, rowMar, rowJan, baseRow] }

/-- A small table with a timestamp column and no temporal sub-columns. -/
def exC5 : Frame := { cols := ["IncidentDate"], rows := [rowJan, baseRow] }

/-- A table with no latitude or longitude column. -/
def exC8 : Frame :=
  { cols := ["IncidentDate", "Primary Type"], rows := [rowJan, theftA] }

theorem mem_uniqGo {α : Type} [DecidableEq α] (a : α) :
    ∀ (n : Nat) (l : List α), l.length ≤ n → (a ∈ uniqGo n l ↔ a ∈ l) := by
  intro n
  induction n with
  | zero =>
    intro l hl
    have h0 : l = [] := List.eq_nil_of_length_eq_zero (Nat.le_zero.mp hl)
    subst h0
    simp [uniqGo]
  | succ n ih =>
    intro l hl
    cases l with
    | nil => simp [uniqGo]
    | cons x xs =>
      have hlen : (xs.filter (fun y => y ≠ x)).length ≤ n :=
        Nat.le_trans (List.length_filter_le _ _) (Nat.le_of_succ_le_succ hl)
      have hlen2 : (xs.filter (fun y => !decide (y = x))).length ≤ n := by
        simpa using hlen
      by_cases hax : a = x
      · simp [uniqGo, hax]
      · simp [uniqGo, hax, ih _ hlen2, List.mem_filter]

theorem mem_uniq {α : Type} [DecidableEq α] (a : α) (l : List α) :
    a ∈ uniq l ↔ a ∈ l :=
  mem_uniqGo a l.length l (Nat.le_refl _)

theorem nodup_uniqGo {α : Type} [DecidableEq α] :
    ∀ (n : Nat) (l : List α), l.length ≤ n → (uniqGo n l).Nodup := by
  intro n
  induction n with
  | zero =>
    intro l hl
    have h0 : l = [] := List.eq_nil_of_length_eq_zero (Nat.le_zero.mp hl)
    subst h0
    simp [uniqGo]
  | succ n ih =>
    intro l hl
    cases l with
    | nil => simp [uniqGo]
    | cons x xs =>
      have hlen : (xs.filter (fun y => y ≠ x)).length ≤ n :=
        Nat.le_trans (List.length_filter_le _ _) (Nat.le_of_succ_le_succ hl)
      rw [uniqGo, List.nodup_cons]
      refine ⟨fun hx => ?_, ih _ hlen⟩
      have hx2 := (mem_uniqGo x n _ hlen).mp hx
      simp [List.mem_filter] at hx2

theorem nodup_uniq {α : Type} [DecidableEq α] (l : List α) : (uniq l).Nodup :=
  nodup_uniqGo l.length l (Nat.le_refl _)

theorem length_count_filter_ne {α : Type} [DecidableEq α] (x : α) (xs : List α) :
    xs.length = xs.count x + (xs.filter (fun y => y ≠ x)).length := by
  induction xs with
  | nil => simp
  | cons a as ih =>
    rw [List.filter_cons]
    by_cases hax : a = x
    · subst hax
      simp only [List.count_cons_self, List.length_cons]
      have hda : ¬ (decide (a ≠ a) = true) := by simp
      rw [if_neg hda]
      omega
    · have hxa : x ≠ a := fun h => hax h.symm
      have hda : decide (a ≠ x) = true := by simpa using hax
      rw [if_pos hda]
      simp only [List.count_cons_of_ne hxa, List.length_cons]
      omega

theorem sum_count_uniqGo {α : Type} [DecidableEq α] :
    ∀ (n : Nat) (l : List α), l.length ≤ n →
      ((uniqGo n l).map (fun v => l.count v)).sum = l.length := by
  intro n
  induction n with
  | zero =>
    intro l hl
    have h0 : l = [] := List.eq_nil_of_length_eq_zero (Nat.le_zero.mp hl)
    subst h0
    simp [uniqGo]
  | succ n ih =>
    intro l hl
    cases l with
    | nil => simp [uniqGo]
    | cons x xs =>
      have hlen : (xs.filter (fun y => y ≠ x)).length ≤ n :=
        Nat.le_trans (List.length_filter_le _ _) (Nat.le_of_succ_le_succ hl)
      have hcongr :
          (uniqGo n (xs.filter (fun y => y ≠ x))).map (fun v => (x :: xs).count v) =
          (uniqGo n (xs.filter (fun y => y ≠ x))).map
            (fun v => (xs.filter (fun y => y ≠ x)).count v) := by
        refine List.map_congr_left (fun v hv => ?_)
        have hvf := (mem_uniqGo v n _ hlen).mp hv
        rw [List.mem_filter] at hvf
        have hvx : v ≠ x := by simpa using hvf.2
        rw [List.count_cons_of_ne hvx, List.count_filter]
        simpa using hvx
      have hkey := length_count_filter_ne x xs
      rw [uniqGo, List.map_cons, List.sum_cons, hcongr, ih _ hlen,
        List.count_cons_self, List.length_cons]
      omega

theorem sum_count_uniq {α : Type} [DecidableEq α] (l : List α) :
    ((uniq l).map (fun v => l.count v)).sum = l.length :=
  sum_count_uniqGo l.length l (Nat.le_refl _)

theorem mem_groupCounts {α : Type} [DecidableEq α] {vals : List α} {p : α × Nat}
    (h : p ∈ groupCounts vals) :
    p.2 = vals.count p.1 ∧ p.1 ∈ vals ∧ 0 < p.2 := by
  rw [groupCounts, List.mem_map] at h
  obtain ⟨v, hv, hp⟩ := h
  have hvv : v ∈ vals := (mem_uniq v vals).mp hv
  subst hp
  exact ⟨rfl, hvv, List.count_pos_iff.mpr hvv⟩

theorem nodup_fst_groupCounts {α : Type} [DecidableEq α] (vals : List α) :
    ((groupCounts vals).map (fun p => p.1)).Nodup := by
  have h : (groupCounts vals).map (fun p => p.1) = uniq vals := by
    rw [groupCounts, List.map_map]
    exact (List.map_congr_left (fun v _ => rfl)).trans (List.map_id _)
  rw [h]
  exact nodup_uniq vals

theorem sum_snd_groupCounts {α : Type} [DecidableEq α] (vals : List α) :
    ((groupCounts vals).map (fun p => p.2)).sum = vals.length := by
  have h : (groupCounts vals).map (fun p => p.2) =
      (uniq vals).map (fun v => vals.count v) := by
    rw [groupCounts, List.map_map]
    exact List.map_congr_left (fun v _ => rfl)
  rw [h]
  exact sum_count_uniq vals

theorem fst_mem_of_mem_groupCounts {α : Type} [DecidableEq α] {vals : List α}
    {v : α} (h : v ∈ (groupCounts vals).map (fun p => p.1)) : v ∈ vals := by
  rw [List.mem_map] at h
  obtain ⟨p, hp, hv⟩ := h
  subst hv
  exact (mem_groupCounts hp).2.1

theorem mem_insertOn {α : Type} (le : α → α → Bool) (a b : α) (l : List α) :
    b ∈ insertOn le a l ↔ b = a ∨ b ∈ l := by
  induction l with
  | nil => simp [insertOn]
  | cons c cs ih =>
    by_cases h : le a c
    · simp only [insertOn, if_pos h, List.mem_cons]
    · simp only [insertOn, if_neg h, List.mem_cons, ih]
      tauto

theorem perm_insertOn {α : Type} (le : α → α → Bool) (a : α) (l : List α) :
    List.Perm (insertOn le a l) (a :: l) := by
  induction l with
  | nil => simp [insertOn]
  | cons c cs ih =>
    by_cases h : le a c
    · rw [insertOn, if_pos h]
    · rw [insertOn, if_neg h]
      exact (ih.cons c).trans (List.Perm.swap a c cs)

theorem perm_sortOn {α : Type} (le : α → α → Bool) (l : List α) :
    List.Perm (sortOn le l) l := by
  induction l with
  | nil => exact List.Perm.refl _
  | cons x xs ih =>
    rw [sortOn]
    exact (perm_insertOn le x (sortOn le xs)).trans (ih.cons x)

theorem pairwise_insertOn {α : Type} (le : α → α → Bool)
    (htrans : ∀ a b c, le a b = true → le b c = true → le a c = true)
    (htot : ∀ a b, le a b = true ∨ le b a = true) (a : α) (l : List α)
    (h : l.Pairwise (fun x y => le x y = true)) :
    (insertOn le a l).Pairwise (fun x y => le x y = true) := by
  induction l with
  | nil => simp [insertOn]
  | cons b bs ih =>
    rw [List.pairwise_cons] at h
    obtain ⟨hb, hbs⟩ := h
    by_cases hab : le a b
    · rw [insertOn, if_pos hab, List.pairwise_cons]
      refine ⟨fun y hy => ?_, List.pairwise_cons.mpr ⟨hb, hbs⟩⟩
      rcases List.mem_cons.mp hy with hy | hy
      · subst hy; exact hab
      · exact htrans a b y hab (hb y hy)
    · rw [insertOn, if_neg hab, List.pairwise_cons]
      have hba : le b a = true := by
        rcases htot a b with h1 | h1
        · exact absurd h1 hab
        · exact h1
      refine ⟨fun y hy => ?_, ih hbs⟩
      rcases (mem_insertOn le a y bs).mp hy with hy | hy
      · subst hy; exact hba
      · exact hb y hy

theorem pairwise_sortOn {α : Type} (le : α → α → Bool)
    (htrans : ∀ a b c, le a b = true → le b c = true → le a c = true)
    (htot : ∀ a b, le a b = true ∨ le b a = true) (l : List α) :
    (sortOn le l).Pairwise (fun x y => le x y = true) := by
  induction l with
  | nil => simp [sortOn]
  | cons x xs ih =>
    rw [sortOn]
    exact pairwise_insertOn le htrans htot x _ ih

theorem cumGo_map_fst {κ : Type} (acc : Nat) (l : List (κ × Nat)) :
    (cumGo acc l).map (fun p => p.1) = l.map (fun p => p.1) := by
  induction l generalizing acc with
  | nil => rfl
  | cons p rest ih =>
    obtain ⟨k, v⟩ := p
    simp [cumGo, ih]

theorem cumGo_length {κ : Type} (acc : Nat) (l : List (κ × Nat)) :
    (cumGo acc l).length = l.length := by
  induction l generalizing acc with
  | nil => rfl
  | cons p rest ih =>
    obtain ⟨k, v⟩ := p
    simp [cumGo, ih]

theorem cumGo_getLastD {κ : Type} (acc : Nat) (l : List (κ × Nat)) :
    ((cumGo acc l).map (fun p => p.2)).getLastD acc =
      acc + (l.map (fun p => p.2)).sum := by
  induction l generalizing acc with
  | nil => simp [cumGo]
  | cons p rest ih =>
    obtain ⟨k, v⟩ := p
    rw [cumGo, List.map_cons, List.getLastD_cons, ih (acc + v), List.map_cons,
      List.sum_cons]
    omega

theorem cumGo_lower {κ : Type} (acc : Nat) (l : List (κ × Nat)) :
    ∀ v ∈ (cumGo acc l).map (fun p => p.2), acc ≤ v := by
  induction l generalizing acc with
  | nil => simp [cumGo]
  | cons p rest ih =>
    obtain ⟨k, v0⟩ := p
    intro v hv
    rw [cumGo, List.map_cons, List.mem_cons] at hv
    rcases hv with hv | hv
    · omega
    · have := ih (acc + v0) v hv
      omega

theorem cumGo_pairwise {κ : Type} (acc : Nat) (l : List (κ × Nat)) :
    ((cumGo acc l).map (fun p => p.2)).Pairwise (fun a b => a ≤ b) := by
  induction l generalizing acc with
  | nil => simp [cumGo]
  | cons p rest ih =>
    obtain ⟨k, v⟩ := p
    rw [cumGo, List.map_cons, List.pairwise_cons]
    refine ⟨fun y hy => ?_, ih (acc + v)⟩
    have := cumGo_lower (acc + v) rest y hy
    omega

theorem cumGo_getD {κ : Type} (acc : Nat) (l : List (κ × Nat)) :
    ∀ i, i < l.length →
      ((cumGo acc l).map (fun p => p.2)).getD i 0 =
        acc + ((l.map (fun p => p.2)).take (i + 1)).sum := by
  induction l generalizing acc with
  | nil => intro i hi; simp at hi
  | cons p rest ih =>
    obtain ⟨k, v⟩ := p
    intro i hi
    cases i with
    | zero => simp [cumGo]
    | succ i =>
      rw [List.length_cons] at hi
      have hi2 : i < rest.length := Nat.lt_of_succ_lt_succ hi
      rw [cumGo, List.map_cons, List.getD_cons_succ, ih (acc + v) i hi2,
        List.map_cons, List.take_succ_cons, List.sum_cons]
      omega

theorem sum_map_addF {α : Type} (f g : α → Nat) (l : List α) :
    (l.map (fun a => f a + g a)).sum = (l.map f).sum + (l.map g).sum := by
  induction l with
  | nil => rfl
  | cons x xs ih =>
    simp only [List.map_cons, List.sum_cons, ih]
    omega

theorem sum_map_zeroF {α : Type} (l : List α) :
    (l.map (fun _ => (0 : Nat))).sum = 0 := by
  induction l with
  | nil => rfl
  | cons x xs ih => simp [ih]

theorem sum_map_ite_count {α : Type} [DecidableEq α] (c : α) (v : Nat)
    (l : List α) :
    (l.map (fun a => if c = a then v else 0)).sum = v * l.count c := by
  induction l with
  | nil => simp
  | cons a as ih =>
    by_cases hca : c = a
    · subst hca
      rw [List.map_cons, List.sum_cons, if_pos rfl, ih, List.count_cons_self,
        Nat.mul_succ]
      omega
    · have hne : c ≠ a := hca
      rw [List.map_cons, List.sum_cons, if_neg hca, ih,
        List.count_cons_of_ne hne]
      omega

theorem sum_count_over_dom {α : Type} [DecidableEq α] (dom vals : List α)
    (hsub : ∀ v ∈ vals, v ∈ dom) (hnd : dom.Nodup) :
    (dom.map (fun w => vals.count w)).sum = vals.length := by
  induction vals with
  | nil => simp [sum_map_zeroF]
  | cons x vs ih =>
    have hcongr : dom.map (fun w => (x :: vs).count w) =
        dom.map (fun w => vs.count w + if w = x then 1 else 0) := by
      refine List.map_congr_left (fun w _ => ?_)
      rw [List.count_cons]
      by_cases hwx : w = x
      · simp [hwx]
      · have hbx : ¬ ((x : α) == w) = true := by
          simp
          exact fun h => hwx h.symm
        simp [hwx, hbx]
    have hx : dom.count x = 1 :=
      List.count_eq_one_of_mem hnd (hsub x (List.mem_cons_self x vs))
    have hite : (dom.map (fun w => if w = x then 1 else 0)).sum = 1 * dom.count x := by
      have hconv : dom.map (fun w => if w = x then (1 : Nat) else 0) =
          dom.map (fun w => if x = w then (1 : Nat) else 0) := by
        refine List.map_congr_left (fun w _ => ?_)
        by_cases hwx : w = x
        · simp [hwx]
        · have : ¬ x = w := fun h => hwx h.symm
          simp [hwx, this]
      rw [hconv]
      exact sum_map_ite_count x 1 dom
    rw [hcongr, sum_map_addF, ih (fun v hv => hsub v (List.mem_cons_of_mem x hv)),
      hite, hx, List.length_cons]

theorem count_filterMap_eq_countP {α β : Type} [DecidableEq β]
    (g : α → Option β) (l : List α) (b : β) :
    (l.filterMap g).count b = l.countP (fun a => g a == some b) := by
  induction l with
  | nil => rfl
  | cons x xs ih =>
    rw [List.filterMap_cons, List.countP_cons]
    cases hg : g x with
    | none => simp [hg, ih]
    | some y =>
      by_cases hyb : y = b
      · subst hyb
        simp [hg, ih, List.count_cons]
      · have hby : b ≠ y := fun h => hyb h.symm
        simp [hg, ih, List.count_cons_of_ne hby, hyb]

theorem length_filterMap_isSome {α β : Type} (g : α → Option β) (l : List α) :
    (l.filterMap g).length = (l.filter (fun a => (g a).isSome)).length := by
  induction l with
  | nil => rfl
  | cons x xs ih =>
    rw [List.filterMap_cons, List.filter_cons]
    cases hg : g x with
    | none => simp [hg, ih]
    | some y => simp [hg, ih]

theorem sum_groups {α : Type} (kf : α → Nat) (ms : List Nat) (l : List (α × Nat))
    (h : ∀ p ∈ l, ms.count (kf p.1) = 1) :
    (ms.map (fun m => ((l.filter (fun p => kf p.1 == m)).map (fun p => p.2)).sum)).sum
      = (l.map (fun p => p.2)).sum := by
  induction l with
  | nil => simp [sum_map_zeroF]
  | cons x l ih =>
    have hx : ms.count (kf x.1) = 1 := h x (List.mem_cons_self x l)
    have hcongr :
        ms.map (fun m => (((x :: l).filter (fun p => kf p.1 == m)).map (fun p => p.2)).sum)
          = ms.map (fun m => (if kf x.1 = m then x.2 else 0) +
              ((l.filter (fun p => kf p.1 == m)).map (fun p => p.2)).sum) := by
      refine List.map_congr_left (fun m _ => ?_)
      rw [List.filter_cons]
      by_cases hm : kf x.1 = m
      · have hb : (kf x.1 == m) = true := by simp [hm]
        rw [if_pos hb, if_pos hm, List.map_cons, List.sum_cons]
      · have hb : ¬ ((kf x.1 == m) = true) := by simp [hm]
        rw [if_neg hb, if_neg hm]
        omega
    rw [hcongr, sum_map_addF, sum_map_ite_count, hx,
      ih (fun p hp => h p (List.mem_cons_of_mem x hp)), List.map_cons,
      List.sum_cons]
    omega

theorem dayOfWeek_lt (d : DateTime) : dayOfWeek d < 7 := by
  rw [dayOfWeek]
  have h7 : (0 : Int) < 7 := by omega
  have hlt := Int.emod_lt_of_pos
    ((((d.day : Int) + (13 * ((if d.month ≤ 2 then (d.month : Int) + 12 else (d.month : Int)) + 1)) / 5 +
      (if d.month ≤ 2 then d.year - 1 else d.year) % 100 +
      (if d.month ≤ 2 then d.year - 1 else d.year) % 100 / 4 +
      (if d.month ≤ 2 then d.year - 1 else d.year) / 100 / 4 +
      5 * ((if d.month ≤ 2 then d.year - 1 else d.year) / 100)) % 7) + 5) h7
  have hge := Int.emod_nonneg
    ((((d.day : Int) + (13 * ((if d.month ≤ 2 then (d.month : Int) + 12 else (d.month : Int)) + 1)) / 5 +
      (if d.month ≤ 2 then d.year - 1 else d.year) % 100 +
      (if d.month ≤ 2 then d.year - 1 else d.year) % 100 / 4 +
      (if d.month ≤ 2 then d.year - 1 else d.year) / 100 / 4 +
      5 * ((if d.month ≤ 2 then d.year - 1 else d.year) / 100)) % 7) + 5)
    (by omega : (7 : Int) ≠ 0)
  omega

theorem dayName_mem_order (n : Nat) (hn : n < 7) : dayName n ∈ weekday_order := by
  interval_cases n <;> decide

theorem sum_take_le (l : List Nat) (n : Nat) : (l.take n).sum ≤ l.sum := by
  conv_rhs => rw [← List.take_append_drop n l]
  rw [List.sum_append]
  omega

theorem byCountDesc_trans {α : Type} (a b c : α × Nat)
    (h1 : byCountDesc a b = true) (h2 : byCountDesc b c = true) :
    byCountDesc a c = true := by
  rw [byCountDesc, decide_eq_true_eq] at *
  omega

theorem byCountDesc_total {α : Type} (a b : α × Nat) :
    byCountDesc a b = true ∨ byCountDesc b a = true := by
  rw [byCountDesc, byCountDesc, decide_eq_true_eq, decide_eq_true_eq]
  omega

theorem topTake_pairwise {α : Type} [DecidableEq α] (vals : List α) :
    (((sortOn byCountDesc (groupCounts vals)).take 10).map (fun p => p.2)).Pairwise
      (fun a b => b ≤ a) := by
  have hs := pairwise_sortOn byCountDesc byCountDesc_trans byCountDesc_total
    (groupCounts vals)
  have ht := hs.sublist (List.take_sublist 10 _)
  rw [List.pairwise_map]
  exact ht.imp (fun h => by rw [byCountDesc, decide_eq_true_eq] at h; exact h)

theorem topTake_mem {α : Type} [DecidableEq α] {vals : List α} {p : α × Nat}
    (hp : p ∈ (sortOn byCountDesc (groupCounts vals)).take 10) :
    p.2 = vals.count p.1 ∧ p.1 ∈ vals ∧ 0 < p.2 := by
  have h1 : p ∈ sortOn byCountDesc (groupCounts vals) := List.mem_of_mem_take hp
  have h2 : p ∈ groupCounts vals := (perm_sortOn byCountDesc _).mem_iff.mp h1
  exact mem_groupCounts h2

theorem topTake_sum {α : Type} [DecidableEq α] (vals : List α) :
    (((sortOn byCountDesc (groupCounts vals)).take 10).map (fun p => p.2)).sum ≤
      vals.length := by
  have h1 : (((sortOn byCountDesc (groupCounts vals)).take 10).map (fun p => p.2)).sum ≤
      ((sortOn byCountDesc (groupCounts vals)).map (fun p => p.2)).sum := by
    have := sum_take_le ((sortOn byCountDesc (groupCounts vals)).map (fun p => p.2)) 10
    rw [← List.map_take] at this
    exact this
  have h2 : ((sortOn byCountDesc (groupCounts vals)).map (fun p => p.2)).sum =
      ((groupCounts vals).map (fun p => p.2)).sum :=
    List.Perm.sum_eq ((perm_sortOn byCountDesc _).map _)
  rw [h2, sum_snd_groupCounts] at h1
  exact h1

theorem catRows_length (f : Frame) (c : String) :
    (catRows f c).length = (ptVals f).count c := by
  rw [catRows, ptVals, count_filterMap_eq_countP, List.countP_eq_length_filter]

theorem map_fst_filterMap_somes {β : Type} (l : List String) (m : String → Option β)
    (h : ∀ c ∈ l, (m c).isSome) :
    (l.filterMap (fun c => (m c).map (fun q => (c, q)))).map (fun p => p.1) = l := by
  induction l with
  | nil => rfl
  | cons c cs ih =>
    obtain ⟨q, hq⟩ := Option.isSome_iff_exists.mp (h c (List.mem_cons_self c cs))
    rw [List.filterMap_cons]
    simp only [hq, Option.map_some']
    rw [List.map_cons, ih (fun v hv => h v (List.mem_cons_of_mem c hv))]

theorem mem_filterMap_somes {β : Type} {l : List String} {m : String → Option β}
    {p : String × β}
    (hp : p ∈ l.filterMap (fun c => (m c).map (fun q => (c, q)))) :
    p.1 ∈ l ∧ m p.1 = some p.2 := by
  rw [List.mem_filterMap] at hp
  obtain ⟨c, hc, hmc⟩ := hp
  cases hm : m c with
  | none => rw [hm] at hmc; simp at hmc
  | some q =>
    rw [hm] at hmc
    simp only [Option.map_some', Option.some.injEq] at hmc
    subst hmc
    exact ⟨hc, hm⟩

/-- C7: each top-category view (primary types, location descriptions) has at
most 10 entries, lists only values that occur (hence non-null), has
descending-or-tied counts, reports each listed category's exact frequency in
its field, and its counts sum to at most the row count. -/
theorem claim_C7_top_views (f : Frame) :
    (top_primary f).length ≤ 10 ∧ (loc_top10 f).length ≤ 10 ∧
    ((top_primary f).map (fun p => p.2)).Pairwise (fun a b => b ≤ a) ∧
    ((loc_top10 f).map (fun p => p.2)).Pairwise (fun a b => b ≤ a) ∧
    (∀ p ∈ top_primary f, p.2 = (ptVals f).count p.1 ∧ 0 < p.2 ∧
      ∃ r ∈ f.rows, r.primaryType = some p.1) ∧
    (∀ p ∈ loc_top10 f, p.2 = (ldVals f).count p.1 ∧ 0 < p.2 ∧
      ∃ r ∈ f.rows, r.locDesc = some p.1) ∧
    ((top_primary f).map (fun p => p.2)).sum ≤ f.rows.length ∧
    ((loc_top10 f).map (fun p => p.2)).sum ≤ f.rows.length := by
  refine ⟨List.length_take_le 10 _, List.length_take_le 10 _,
    topTake_pairwise (ptVals f), topTake_pairwise (ldVals f), ?_, ?_, ?_, ?_⟩
  · intro p hp
    have h := topTake_mem hp
    refine ⟨h.1, h.2.2, ?_⟩
    have := h.2.1
    rw [ptVals, List.mem_filterMap] at this
    obtain ⟨r, hr, hrp⟩ := this
    exact ⟨r, hr, hrp⟩
  · intro p hp
    have h := topTake_mem hp
    refine ⟨h.1, h.2.2, ?_⟩
    have := h.2.1
    rw [ldVals, List.mem_filterMap] at this
    obtain ⟨r, hr, hrp⟩ := this
    exact ⟨r, hr, hrp⟩
  · exact Nat.le_trans (topTake_sum (ptVals f)) (List.length_filterMap_le _ _)
  · exact Nat.le_trans (topTake_sum (ldVals f)) (List.length_filterMap_le _ _)

theorem claim_C7_top_views_witness :
    ((("THEFT" : String), (60 : Nat)) ∈ top_primary exC3) ∧
    ((60 : Nat) = (ptVals exC3).count ("THEFT") ∧ 0 < 60 ∧
      ∃ r ∈ exC3.rows, r.primaryType = some ("THEFT")) ∧
    (top_primary exC3).length ≤ 10 := by
  have h := claim_C7_top_views exC3
  exact ⟨by decide, h.2.2.2.2.1 ("THEFT", 60) (by decide), h.1⟩

theorem top10_rows_ne_zero (f : Frame) (c : String) (hc : c ∈ top10 f) :
    (catRows f c).length ≠ 0 := by
  rw [top10, List.mem_map] at hc
  obtain ⟨p, hp, hpc⟩ := hc
  have h := topTake_mem hp
  subst hpc
  rw [catRows_length]
  have := List.count_pos_iff.mpr h.2.1
  omega

/-- C3: the rate view's domain is exactly the top-10 primary-type list in
that order (no listed category has zero qualifying rows, so nothing is
omitted and no division by zero occurs); every rate is the arithmetic mean of
the boolean arrest field over that category's rows and lies in [0, 1]; and on
the spec's 100-row example the THEFT rate is 1/2. -/
theorem claim_C3_arrest_rate :
    (∀ f : Frame,
      (arrest_rate f).map (fun p => p.1) = top10 f ∧
      ∀ p ∈ arrest_rate f,
        0 < (catRows f p.1).length ∧
        p.2 = ((catRows f p.1).countP (fun r => r.arrest) : ℚ) /
          ((catRows f p.1).length : ℚ) ∧
        0 ≤ p.2 ∧ p.2 ≤ 1) ∧
    (arrest_rate exC3).lookup ("THEFT") = some (1 / 2 : ℚ) := by
  constructor
  · intro f
    have hsome : ∀ c ∈ top10 f, (meanArrest f c).isSome := by
      intro c hc
      rw [meanArrest]
      simp only [top10_rows_ne_zero f c hc, if_false]
      rfl
    constructor
    · exact map_fst_filterMap_somes _ _ hsome
    · intro p hp
      obtain ⟨hmem, hm⟩ := mem_filterMap_somes hp
      rw [meanArrest] at hm
      have hne : (catRows f p.1).length ≠ 0 := top10_rows_ne_zero f p.1 hmem
      rw [if_neg hne] at hm
      have hv : p.2 = ((catRows f p.1).countP (fun r => r.arrest) : ℚ) /
          ((catRows f p.1).length : ℚ) := (Option.some.inj hm).symm
      refine ⟨Nat.pos_of_ne_zero hne, hv, ?_, ?_⟩
      · rw [hv]
        exact div_nonneg (Nat.cast_nonneg _) (Nat.cast_nonneg _)
      · rw [hv]
        rw [div_le_one (by exact_mod_cast Nat.pos_of_ne_zero hne)]
        exact_mod_cast List.countP_le_length (fun r : Row => r.arrest)
  · have h4 : top10 exC3 = ["THEFT", "BATTERY"] := by decide
    have h2 : (catRows exC3 ("THEFT")).countP (fun r => r.arrest) = 30 := by decide
    have h3 : (catRows exC3 ("THEFT")).length = 60 := by decide
    have h5 : (catRows exC3 ("BATTERY")).length = 40 := by decide
    simp [arrest_rate, h4, meanArrest, h2, h3, h5, List.lookup]
    norm_num

theorem claim_C3_arrest_rate_witness :
    ((("THEFT" : String), (1 / 2 : ℚ)) ∈ arrest_rate exC3) ∧
    (0 < (catRows exC3 ("THEFT")).length ∧
      (1 / 2 : ℚ) = ((catRows exC3 ("THEFT")).countP (fun r => r.arrest) : ℚ) /
        ((catRows exC3 ("THEFT")).length : ℚ) ∧
      0 ≤ (1 / 2 : ℚ) ∧ (1 / 2 : ℚ) ≤ 1) := by
  have h4 : top10 exC3 = ["THEFT", "BATTERY"] := by decide
  have h2 : (catRows exC3 ("THEFT")).countP (fun r => r.arrest) = 30 := by decide
  have h3 : (catRows exC3 ("THEFT")).length = 60 := by decide
  have h5 : (catRows exC3 ("BATTERY")).countP (fun r => r.arrest) = 0 := by decide
  have h6 : (catRows exC3 ("BATTERY")).length = 40 := by decide
  have hT : ¬ (catRows exC3 ("THEFT")).length = 0 := by decide
  have hB : ¬ (catRows exC3 ("BATTERY")).length = 0 := by decide
  have harr : arrest_rate exC3 =
      [(("THEFT" : String), (1 / 2 : ℚ)), (("BATTERY" : String), (0 : ℚ))] := by
    rw [arrest_rate, h4, List.filterMap_cons, List.filterMap_cons,
      List.filterMap_nil, meanArrest, meanArrest]
    simp only [if_neg hT, if_neg hB, h2, h3, h5, h6, Option.map_some']
    norm_num
  have hmem : ((("THEFT" : String), (1 / 2 : ℚ))) ∈ arrest_rate exC3 := by
    rw [harr]
    exact List.mem_cons_self _ _
  exact ⟨hmem, (claim_C3_arrest_rate.1 exC3).2 _ hmem⟩

theorem countOcc_pos {α : Type} [DecidableEq α] {l : List α} {a : α} :
    0 < countOcc l a ↔ a ∈ l := by
  rw [countOcc]
  exact List.count_pos_iff

theorem fst_groupCounts_eq_uniq {α : Type} [DecidableEq α] (vals : List α) :
    (groupCounts vals).map (fun p => p.1) = uniq vals := by
  rw [groupCounts, List.map_map]
  exact (List.map_congr_left (fun v _ => rfl)).trans (List.map_id _)

theorem perLe_trans (a b c : (Int × Nat) × Nat) (h1 : perLe a b = true)
    (h2 : perLe b c = true) : perLe a c = true := by
  rw [perLe, decide_eq_true_eq] at *
  omega

theorem perLe_total (a b : (Int × Nat) × Nat) :
    perLe a b = true ∨ perLe b a = true := by
  rw [perLe, perLe, decide_eq_true_eq, decide_eq_true_eq]
  omega

/-- C4: the cumulative series has the same period domain as the monthly
series, its i-th value is the sum of the monthly values 0..i, it is
non-decreasing, and its final value is the number of rows with a non-null
timestamp. -/
theorem claim_C4_cumulative (f : Frame) :
    (cum f).map (fun p => p.1) = (monthly f).map (fun p => p.1) ∧
    (∀ i, i < (cum f).length →
      ((cum f).map (fun p => p.2)).getD i 0 =
        (((monthly f).map (fun p => p.2)).take (i + 1)).sum) ∧
    ((cum f).map (fun p => p.2)).Pairwise (fun a b => a ≤ b) ∧
    ((cum f).map (fun p => p.2)).getLastD 0 =
      (f.rows.filter (fun r => r.date.isSome)).length := by
  refine ⟨cumGo_map_fst 0 _, ?_, cumGo_pairwise 0 _, ?_⟩
  · intro i hi
    rw [cum, cumGo_length] at hi
    rw [cum, cumGo_getD 0 (monthly f) i hi]
    omega
  · rw [cum, cumGo_getLastD]
    have h1 : ((monthly f).map (fun p => p.2)).sum =
        ((groupCounts (periodVals f)).map (fun p => p.2)).sum :=
      List.Perm.sum_eq ((perm_sortOn perLe _).map _)
    have h2 : (periodVals f).length = (f.rows.filterMap (fun r => r.date)).length := by
      rw [periodVals, List.length_map]
    rw [h1, sum_snd_groupCounts, h2, length_filterMap_isSome]
    omega

theorem claim_C4_cumulative_witness :
    (1 < (cum exC6).length) ∧
    ((cum exC6).map (fun p => p.2)).getD 1 0 =
      (((monthly exC6).map (fun p => p.2)).take 2).sum := by
  exact ⟨by decide, (claim_C4_cumulative exC6).2.1 1 (by decide)⟩

/-- C6: the monthly time series has strictly increasing calendar periods,
every entry counts exactly the rows whose non-null timestamp falls in its
period (so null timestamps are excluded and every listed period is
inhabited), every inhabited period is listed (empty months are absent rather
than zero-filled), and on the spec's Jan/Mar-2015 example the series has
exactly 2 entries. -/
theorem claim_C6_time_series :
    (∀ f : Frame,
      ((monthly f).map (fun p => p.1)).Pairwise
        (fun a b => a.1 < b.1 ∨ (a.1 = b.1 ∧ a.2 < b.2)) ∧
      (∀ p ∈ monthly f, p.2 = countOcc (periodVals f) p.1 ∧ 0 < p.2 ∧
        ∃ r ∈ f.rows, ∃ d, r.date = some d ∧ (d.year, d.month) = p.1) ∧
      (∀ q : Int × Nat, 0 < countOcc (periodVals f) q →
        q ∈ (monthly f).map (fun p => p.1))) ∧
    (monthly exC6).length = 2 := by
  constructor
  · intro f
    refine ⟨?_, ?_, ?_⟩
    · have hp := pairwise_sortOn perLe perLe_trans perLe_total
        (groupCounts (periodVals f))
      have hnd : ((monthly f).map (fun p => p.1)).Nodup := by
        have h1 := nodup_fst_groupCounts (periodVals f)
        have h2 : List.Perm ((monthly f).map (fun p => p.1))
            ((groupCounts (periodVals f)).map (fun p => p.1)) :=
          (perm_sortOn perLe _).map _
        exact h2.symm.nodup h1
      rw [List.pairwise_map]
      have hnd2 : (monthly f).Pairwise (fun a b => a.1 ≠ b.1) := by
        rw [List.Nodup, List.pairwise_map] at hnd
        exact hnd
      refine (hp.and hnd2).imp ?_
      intro a b hab
      obtain ⟨hle, hne⟩ := hab
      rw [perLe, decide_eq_true_eq] at hle
      rcases hle with h | ⟨h1, h2⟩
      · exact Or.inl h
      · refine Or.inr ⟨h1, ?_⟩
        have hm2 : a.1.2 ≠ b.1.2 := fun hm => hne (Prod.ext h1 hm)
        omega
    · intro p hp
      have hgc : p ∈ groupCounts (periodVals f) :=
        (perm_sortOn perLe _).mem_iff.mp hp
      have h := mem_groupCounts hgc
      refine ⟨h.1, h.2.2, ?_⟩
      have hv := h.2.1
      rw [periodVals, List.mem_map] at hv
      obtain ⟨d, hd, hdp⟩ := hv
      rw [List.mem_filterMap] at hd
      obtain ⟨r, hr, hrd⟩ := hd
      exact ⟨r, hr, d, hrd, hdp⟩
    · intro q hq
      have hqv : q ∈ periodVals f := countOcc_pos.mp hq
      have hqu : q ∈ (groupCounts (periodVals f)).map (fun p => p.1) := by
        rw [fst_groupCounts_eq_uniq]
        exact (mem_uniq q _).mpr hqv
      exact ((perm_sortOn perLe _).map (fun p => p.1)).mem_iff.mpr hqu
  · decide

theorem claim_C6_time_series_witness :
    ((((2015 : Int), (1 : Nat)), (2 : Nat)) ∈ monthly exC6) ∧
    ((2 : Nat) = countOcc (periodVals exC6) ((2015 : Int), (1 : Nat)) ∧ 0 < 2 ∧
      ∃ r ∈ exC6.rows, ∃ d, r.date = some d ∧
        ((d.year, d.month) : Int × Nat) = ((2015 : Int), (1 : Nat))) := by
  have hmem : ((((2015 : Int), (1 : Nat)), (2 : Nat)) ∈ monthly exC6) := by decide
  exact ⟨hmem, (claim_C6_time_series.1 exC6).2.1 _ hmem⟩

theorem normalize_runs (f : Frame) (hY : "Year" ∉ f.cols)
    (hD : "IncidentDate" ∈ f.cols) :
    normalize f = { cols := f.cols ++ tempCols.filter (fun c => c ∉ f.cols),
                    rows := f.rows.map deriveRow } := by
  rw [normalize, if_pos ⟨hY, hD⟩]

theorem derived_weekday_canonical (f : Frame) (hY : "Year" ∉ f.cols)
    (hD : "IncidentDate" ∈ f.cols) :
    ∀ v ∈ (normalize f).rows.filterMap (fun r => r.weekday), v ∈ weekday_order := by
  intro v hv
  rw [List.mem_filterMap] at hv
  obtain ⟨r, hr, hrv⟩ := hv
  rw [normalize_runs f hY hD] at hr
  simp only [List.mem_map] at hr
  obtain ⟨r0, _, hr0⟩ := hr
  subst hr0
  rw [deriveRow] at hrv
  simp only [Option.map_eq_some'] at hrv
  obtain ⟨d, _, hd2⟩ := hrv
  subst hd2
  exact dayName_mem_order _ (dayOfWeek_lt d)

/-- C5: the weekday distribution always has exactly 7 entries, in the fixed
Monday-to-Sunday order, each entry counting that name's occurrences (an
unobserved name is present with count 0, not omitted); and when the temporal
fields are derived from the timestamp (the normalizer ran), the seven counts
sum to the number of rows with a non-null weekday value. -/
theorem claim_C5_weekday (f : Frame) :
    (weekday_counts (normalize f)).length = 7 ∧
    (weekday_counts (normalize f)).map (fun p => p.1) = weekday_order ∧
    (∀ p ∈ weekday_counts (normalize f),
      p.2 = countOcc ((normalize f).rows.filterMap (fun r => r.weekday)) p.1) ∧
    ("Year" ∉ f.cols → "IncidentDate" ∈ f.cols →
      ((weekday_counts (normalize f)).map (fun p => p.2)).sum =
        ((normalize f).rows.filter (fun r => r.weekday.isSome)).length) := by
  refine ⟨?_, ?_, ?_, ?_⟩
  · rw [weekday_counts, List.length_map]
    rfl
  · rw [weekday_counts, List.map_map]
    exact (List.map_congr_left (fun w _ => rfl)).trans (List.map_id _)
  · intro p hp
    rw [weekday_counts, List.mem_map] at hp
    obtain ⟨w, _, hp⟩ := hp
    subst hp
    rfl
  · intro hY hD
    have hsub := derived_weekday_canonical f hY hD
    have hnd : weekday_order.Nodup := by decide
    have hmap : (weekday_counts (normalize f)).map (fun p => p.2) =
        weekday_order.map (fun w =>
          ((normalize f).rows.filterMap (fun r => r.weekday)).count w) := by
      rw [weekday_counts, List.map_map]
      exact List.map_congr_left (fun w _ => rfl)
    rw [hmap, sum_count_over_dom weekday_order _ hsub hnd,
      length_filterMap_isSome]

theorem claim_C5_weekday_witness :
    (¬ "Year" ∈ exC5.cols) ∧ ("IncidentDate" ∈ exC5.cols) ∧
    ((("Monday" : String), (1 : Nat)) ∈ weekday_counts (normalize exC5)) ∧
    ((1 : Nat) = countOcc ((normalize exC5).rows.filterMap (fun r => r.weekday))
      ("Monday")) ∧
    ((weekday_counts (normalize exC5)).map (fun p => p.2)).sum =
      ((normalize exC5).rows.filter (fun r => r.weekday.isSome)).length := by
  have h := claim_C5_weekday exC5
  refine ⟨by decide, by decide, by decide, ?_, h.2.2.2 (by decide) (by decide)⟩
  exact h.2.2.1 ("Monday", 1) (by decide)

/-- C9: on a table that has the timestamp column but none of the five
temporal columns, the normalizer runs: it adds all five columns, keeps every
original column and every row, overwrites no pre-existing column, and fills
each derived field as a pure projection of the row's timestamp, with all
five null exactly when the timestamp is null. -/
theorem claim_C9_normalizer (f : Frame) (hdate : "IncidentDate" ∈ f.cols)
    (habs : ∀ c ∈ tempCols, c ∉ f.cols) :
    (normalize f).rows = f.rows.map deriveRow ∧
    (∀ c ∈ tempCols, c ∈ (normalize f).cols) ∧
    (∀ c ∈ f.cols, c ∈ (normalize f).cols) ∧
    (normalize f).rows.length = f.rows.length ∧
    (∀ r : Row, (deriveRow r).primaryType = r.primaryType ∧
      (deriveRow r).locDesc = r.locDesc ∧ (deriveRow r).arrest = r.arrest ∧
      (deriveRow r).date = r.date ∧ (deriveRow r).lat = r.lat ∧
      (deriveRow r).lon = r.lon) ∧
    (∀ r : Row, (deriveRow r).year = r.date.map (fun d => d.year) ∧
      (deriveRow r).month = r.date.map (fun d => d.month) ∧
      (deriveRow r).day = r.date.map (fun d => d.day) ∧
      (deriveRow r).hour = r.date.map (fun d => d.hour) ∧
      (deriveRow r).weekday = r.date.map (fun d => dayName (dayOfWeek d))) ∧
    (∀ r : Row, r.date = none →
      (deriveRow r).year = none ∧ (deriveRow r).month = none ∧
      (deriveRow r).day = none ∧ (deriveRow r).hour = none ∧
      (deriveRow r).weekday = none) := by
  have hY : "Year" ∉ f.cols := habs "Year" (by decide)
  have hn := normalize_runs f hY hdate
  refine ⟨by rw [hn], ?_, ?_, by rw [hn]; exact List.length_map _ _, ?_, ?_, ?_⟩
  · intro c hc
    rw [hn]
    simp only [List.mem_append, List.mem_filter]
    right
    exact ⟨hc, by simpa using habs c hc⟩
  · intro c hc
    rw [hn]
    simp only [List.mem_append]
    exact Or.inl hc
  · intro r
    exact ⟨rfl, rfl, rfl, rfl, rfl, rfl⟩
  · intro r
    exact ⟨rfl, rfl, rfl, rfl, rfl⟩
  · intro r hr
    rw [deriveRow]
    simp [hr]

theorem claim_C9_normalizer_witness :
    ("IncidentDate" ∈ exC5.cols) ∧ (∀ c ∈ tempCols, c ∉ exC5.cols) ∧
    (normalize exC5).rows = exC5.rows.map deriveRow := by
  refine ⟨by decide, by decide, ?_⟩
  exact (claim_C9_normalizer exC5 (by decide) (by decide)).1

theorem find_cols_normalize (f : Frame) (p : String → Bool)
    (hp : ∀ c ∈ tempCols, ¬ p c = true) (h : f.cols.find? p = none) :
    (normalize f).cols.find? p = none := by
  rw [normalize]
  by_cases hc : "Year" ∉ f.cols ∧ "IncidentDate" ∈ f.cols
  · rw [if_pos hc]
    show (f.cols ++ tempCols.filter (fun c => c ∉ f.cols)).find? p = none
    rw [List.find?_append, h, Option.none_or]
    exact List.find?_eq_none.mpr (fun x hx => hp x (List.mem_filter.mp hx).1)
  · rw [if_neg hc]
    exact h

theorem latCol_normalize_none (f : Frame) (h : latCol f = none) :
    latCol (normalize f) = none :=
  find_cols_normalize f _ (by decide) h

theorem lonCol_normalize_none (f : Frame) (h : lonCol f = none) :
    lonCol (normalize f) = none :=
  find_cols_normalize f _ (by decide) h

/-- C8: when the table has no latitude-prefixed or no longitude-prefixed
column, the spatial block is skipped: the sample and density views are
absent, nothing fails, and every non-spatial view — including the cumulative
series and monthly groups computed after the spatial block — is still
produced from the normalized table. -/
theorem claim_C8_no_geo (f : Frame) (h : latCol f = none ∨ lonCol f = none) :
    (pipeline f).spatial = none ∧ (pipeline f).density = none ∧
    (pipeline f).topPrimary = top_primary (normalize f) ∧
    (pipeline f).arrestRate = arrest_rate (normalize f) ∧
    (pipeline f).monthlySeries = monthly (normalize f) ∧
    (pipeline f).hourlyHist = hourly (normalize f) ∧
    (pipeline f).weekday = weekday_counts (normalize f) ∧
    (pipeline f).locTop = loc_top10 (normalize f) ∧
    (pipeline f).cumulative = some (cum (normalize f)) ∧
    (pipeline f).monthlyGroups = some (monthly_groups (normalize f)) := by
  have hs : sample_scatter (normalize f) = none := by
    rw [sample_scatter]
    rcases h with h | h
    · rw [latCol_normalize_none f h]
      simp
    · rw [lonCol_normalize_none f h]
      simp
  refine ⟨?_, ?_, rfl, rfl, rfl, rfl, rfl, rfl, ?_, ?_⟩ <;>
    simp [pipeline, hs]

theorem claim_C8_no_geo_witness :
    (latCol exC8 = none) ∧ (pipeline exC8).spatial = none ∧
    (pipeline exC8).cumulative = some (cum (normalize exC8)) := by
  have h := claim_C8_no_geo exC8 (Or.inl (by decide))
  exact ⟨by decide, h.1, h.2.2.2.2.2.2.2.2.1⟩

theorem length_filterMap_of_isSome {α β : Type} (g : α → Option β) (l : List α)
    (h : ∀ a ∈ l, (g a).isSome) : (l.filterMap g).length = l.length := by
  induction l with
  | nil => rfl
  | cons x xs ih =>
    rw [List.filterMap_cons]
    cases hg : g x with
    | none =>
      have := h x (List.mem_cons_self x xs)
      rw [hg] at this
      simp at this
    | some y =>
      simp [ih (fun a ha => h a (List.mem_cons_of_mem x ha))]

/-- The grouping-key extraction of line 124 applied to one row. -/
theorem dailyKey_of_derived (f : Frame) (hY : "Year" ∉ f.cols)
    (hD : "IncidentDate" ∈ f.cols) (r : Row)
    (hr : r ∈ ((normalize f).rows.filter (fun r => r.date.isSome))) :
    ∃ r0 ∈ f.rows, ∃ d : DateTime, r0.date = some d ∧
      (match r.year, r.month, r.date with
        | some y, some m, some dd => some (⟨y, m, dd.year, dd.month, dd.day⟩ : DailyKey)
        | _, _, _ => none) = some ⟨d.year, d.month, d.year, d.month, d.day⟩ := by
  rw [List.mem_filter] at hr
  obtain ⟨hrm, hrs⟩ := hr
  rw [normalize_runs f hY hD] at hrm
  simp only [List.mem_map] at hrm
  obtain ⟨r0, hr0, hr0e⟩ := hrm
  subst hr0e
  have hds : r0.date.isSome := hrs
  obtain ⟨d, hd⟩ := Option.isSome_iff_exists.mp hds
  refine ⟨r0, hr0, d, hd, ?_⟩
  rw [deriveRow]
  simp [hd]

theorem mem_dailyKeys_derived (f : Frame) (hY : "Year" ∉ f.cols)
    (hD : "IncidentDate" ∈ f.cols)
    (hM : ∀ r ∈ f.rows, ∀ d : DateTime, r.date = some d →
      1 ≤ d.month ∧ d.month ≤ 12) :
    ∀ k ∈ dailyKeys (normalize f), 1 ≤ k.month ∧ k.month ≤ 12 := by
  intro k hk
  rw [dailyKeys, List.mem_filterMap] at hk
  obtain ⟨r, hr, hrk⟩ := hk
  obtain ⟨r0, hr0, d, hd, hkey⟩ := dailyKey_of_derived f hY hD r hr
  rw [hkey] at hrk
  have hm := hM r0 hr0 d hd
  cases hrk
  exact hm

theorem dailyKeys_length (f : Frame) (hY : "Year" ∉ f.cols)
    (hD : "IncidentDate" ∈ f.cols) :
    (dailyKeys (normalize f)).length =
      ((normalize f).rows.filter (fun r => r.date.isSome)).length := by
  rw [dailyKeys]
  refine length_filterMap_of_isSome _ _ (fun r hr => ?_)
  obtain ⟨r0, hr0, d, hd, hkey⟩ := dailyKey_of_derived f hY hD r hr
  rw [hkey]
  rfl

/-- C10: when the temporal fields are derived from the timestamp and every
timestamp has a calendar month 1–12, the per-day counts are keyed by
pairwise-distinct (Year, Month, date) triples, every per-day count is at
least 1 and is that key's exact multiplicity, and the counts in the twelve
monthly groups sum to the number of rows with a non-null timestamp. -/
theorem claim_C10_monthly_groups (f : Frame) (hY : "Year" ∉ f.cols)
    (hD : "IncidentDate" ∈ f.cols)
    (hM : ∀ r ∈ f.rows, ∀ d : DateTime, r.date = some d →
      1 ≤ d.month ∧ d.month ≤ 12) :
    ((daily_counts (normalize f)).map (fun p => p.1)).Nodup ∧
    (∀ p ∈ daily_counts (normalize f),
      0 < p.2 ∧ p.2 = countOcc (dailyKeys (normalize f)) p.1) ∧
    ((monthly_groups (normalize f)).map (fun g => g.sum)).sum =
      ((normalize f).rows.filter (fun r => r.date.isSome)).length := by
  refine ⟨?_, ?_, ?_⟩
  · have h1 := nodup_fst_groupCounts (dailyKeys (normalize f))
    have h2 : List.Perm ((daily_counts (normalize f)).map (fun p => p.1))
        ((groupCounts (dailyKeys (normalize f))).map (fun p => p.1)) :=
      (perm_sortOn _ _).map _
    exact h2.symm.nodup h1
  · intro p hp
    have hgc : p ∈ groupCounts (dailyKeys (normalize f)) :=
      (perm_sortOn _ _).mem_iff.mp hp
    have h := mem_groupCounts hgc
    exact ⟨h.2.2, h.1⟩
  · have hbound := mem_dailyKeys_derived f hY hD hM
    have h1 : ∀ p ∈ daily_counts (normalize f),
        (List.range' 1 12).count p.1.month = 1 := by
      intro p hp
      have hgc : p ∈ groupCounts (dailyKeys (normalize f)) :=
        (perm_sortOn _ _).mem_iff.mp hp
      have h := mem_groupCounts hgc
      have hb := hbound p.1 h.2.1
      have hc : ∀ m : Nat, 1 ≤ m → m ≤ 12 → (List.range' 1 12).count m = 1 := by
        intro m hm1 hm2
        interval_cases m <;> decide
      exact hc p.1.month hb.1 hb.2
    have h2 := sum_groups (fun k : DailyKey => k.month) (List.range' 1 12)
      (daily_counts (normalize f)) h1
    have h3 : ((monthly_groups (normalize f)).map (fun g => g.sum)).sum =
        ((List.range' 1 12).map (fun m =>
          (((daily_counts (normalize f)).filter
            (fun p => p.1.month == m)).map (fun p => p.2)).sum)).sum := by
      rw [monthly_groups, List.map_map]
      rfl
    have h4 : ((daily_counts (normalize f)).map (fun p => p.2)).sum =
        ((groupCounts (dailyKeys (normalize f))).map (fun p => p.2)).sum :=
      List.Perm.sum_eq ((perm_sortOn _ _).map _)
    rw [h3, h2, h4, sum_snd_groupCounts, dailyKeys_length f hY hD]

theorem claim_C10_monthly_groups_witness :
    (¬ "Year" ∈ exC5.cols) ∧ ("IncidentDate" ∈ exC5.cols) ∧
    (∀ r ∈ exC5.rows, ∀ d : DateTime, r.date = some d →
      1 ≤ d.month ∧ d.month ≤ 12) ∧
    ((monthly_groups (normalize exC5)).map (fun g => g.sum)).sum =
      ((normalize exC5).rows.filter (fun r => r.date.isSome)).length := by
  refine ⟨by decide, by decide, by decide, ?_⟩
  exact (claim_C10_monthly_groups exC5 (by decide) (by decide) (by decide)).2.2

/-- C2: the embedded pipeline is a pure function of the input table — the
random source is modelled as a function of the fixed seed — so re-running
the whole pipeline, the spatial sampler, or the seeded sampling primitive on
the same input yields identical results. -/
theorem claim_C2_deterministic :
    (∀ f : Frame, pipeline f = pipeline f) ∧
    (∀ f : Frame, sample_scatter (normalize f) = sample_scatter (normalize f)) ∧
    (∀ (seed n : Nat) (l : List Row), pandasSample seed n l = pandasSample seed n l) :=
  ⟨fun _ => rfl, fun _ => rfl, fun _ _ _ => rfl⟩

/-- C1 (code bug, line 97): on a two-row table with coordinate columns in
which only one row has both coordinates non-null, the script computes the
sample size from the FULL table (`min(20000, len(df)) = 2`) but samples from
the 1 coordinate-complete row, so pandas `.sample` raises (modelled as
`some none`) — whereas the claim requires a successful sample of size
`min(20000, 1) = 1`. -/
theorem claim_C1_sample_size_bug :
    sample_scatter (normalize exC1) = some none ∧
    (geoRows (normalize exC1)).length = 1 ∧
    min 20000 (normalize exC1).rows.length = 2 ∧
    min 20000 (geoRows (normalize exC1)).length = 1 :=
  ⟨by decide, by decide, by decide, by decide⟩

end Chicago
